import Mathlib

/-! The request gateway of rpc-endpoint, `server/server.go`.

A shallow embedding of `server.go` (package `server`) and the properties of its
blacklist filter, its transaction dedup map with the periodic sweep, its health
report and its HTTP method dispatch.

Conventions of the embedding.

* A Go `string` is its sequence of bytes (`GoString`).
* A `time.Time` is an instant, counted in nanoseconds from the Unix epoch
  (`Time`); where its location matters, in the JSON encoding, it is paired with
  the zone offset of that location (`ZonedTime`). A `time.Duration` is a signed
  64-bit count of nanoseconds.
* Package-level variables (`blacklistedIps`, `txForwardedToRelay`, `Now`) are
  passed explicitly: a function reading one takes its current value as an
  argument, a function writing one returns the new value.
* The `net/http`, `strings`, `time`, `encoding/json` and `log` routines the file
  calls are modelled from their documented behaviour, next to their callers.
-/

namespace Server

/-! ## Strings -/

/-- A Go string: an immutable sequence of bytes. -/
abbrev GoString := List UInt8

/-- The bytes (UTF-8) of a string literal of the source. -/
def str (s : String) : GoString := s.toUTF8.data.toList

/-- Go `strings.HasPrefix(s, p)`: `len(s) >= len(p) && s[0:len(p)] == p`. -/
def HasPrefix (s p : GoString) : Bool :=
  decide (s.length ≥ p.length) && s.take p.length == p

/-! ## Blacklist filter -/

/-- The initial value of `var blacklistedIps = []string{"127.0.0.2"}`
(its source comment reads "No IPs blacklisted right now"). -/
def blacklistedIps : List GoString := [str "127.0.0.2"]

/-- The loop of `IsBlacklisted` over a blacklist `ips`:
`for i := range ips { if strings.HasPrefix(ip, ips[i]) { return true } }; return false`. -/
def IsBlacklistedIn : List GoString → GoString → Bool
  | [], _ => false
  | p :: rest, ip => if HasPrefix ip p then true else IsBlacklistedIn rest ip

/-- Go `func IsBlacklisted(ip string) bool`, reading the package variable
`blacklistedIps` (never assigned after its initialisation). -/
def IsBlacklisted (ip : GoString) : Bool := IsBlacklistedIn blacklistedIps ip

/-! ## Time, durations and `float64` -/

/-- The instant of a `time.Time`: nanoseconds since the Unix epoch. -/
abbrev Time := Int

/-- A `time.Time` with its location: the instant, and the offset of the location
at that instant in seconds east of UTC (zero for UTC). -/
structure ZonedTime where
  instant : Time
  offset : Int
  deriving DecidableEq

/-- A `time.Duration`: nanoseconds, kept within the `int64` range by `Time.Sub`. -/
abbrev Duration := Int

/-- Go `time.Minute = 60 * time.Second`, in nanoseconds. -/
def Minute : Duration := 60 * 1000000000

/-- Go `maxDuration = 1<<63 - 1`. -/
def maxDuration : Duration := 2 ^ 63 - 1

/-- Go `minDuration = -1 << 63`. -/
def minDuration : Duration := -2 ^ 63

/-- Go `t.Sub(u)`: the duration `t - u`, saturated to the largest or smallest
representable duration when the difference does not fit. -/
def Time.Sub (t u : Time) : Duration :=
  if maxDuration < t - u then maxDuration
  else if t - u < minDuration then minDuration
  else t - u

/-- Go `time.Since(t)`, which is `time.Now().Sub(t)`; `now` is the reading of
the system clock taken by that call. When both times carry a monotonic reading
the subtraction is done on those readings; in either case the result is the
saturated difference of the two instants. -/
def Since (now t : Time) : Duration := Time.Sub now t

/-- Round a rational to the nearest integer, a tie going to the even neighbour. -/
def roundHalfEven (x : ℚ) : ℤ :=
  if x - ⌊x⌋ < 1 / 2 then ⌊x⌋
  else if 1 / 2 < x - ⌊x⌋ then ⌊x⌋ + 1
  else if ⌊x⌋ % 2 = 0 then ⌊x⌋ else ⌊x⌋ + 1

/-- The `float64` nearest to the exact value `x` (IEEE 754 binary64, round to
nearest, ties to even): `x` is scaled so that its significand has 53 bits,
rounded to an integer and scaled back. Exponent limits are left out; every value
that `Duration.Minutes` rounds is zero or of magnitude between `1e-11` and
`1.6e8`, well inside the normal range. -/
def f64 (x : ℚ) : ℚ :=
  if x = 0 then 0
  else roundHalfEven (x / 2 ^ (Int.log 2 |x| - 52)) * 2 ^ (Int.log 2 |x| - 52)

/-- Go `func (d Duration) Minutes() float64`:
`min := d / Minute; nsec := d % Minute; return float64(min) + float64(nsec)/(60*1e9)`.
Go's integer `/` and `%` truncate toward zero; the constant `60*1e9` is exact;
the two conversions, the division and the addition each round to `float64`. -/
def Duration.Minutes (d : Duration) : ℚ :=
  let min := Int.tdiv d Minute
  let nsec := Int.tmod d Minute
  f64 (f64 (min : ℚ) + f64 (f64 (nsec : ℚ) / 60000000000))

/-! ## Dedup map and its sweep -/

/-- The type of `txForwardedToRelay`, a Go `map[string]time.Time`: finitely many
entries with pairwise distinct keys. The order of the entries stands for the
(unspecified) order in which `range` visits them. -/
abbrev TxMap := AList (fun _ : GoString => Time)

/-- The initial value `make(map[string]time.Time)`. -/
def txForwardedToRelay : TxMap := ∅

/-- The body of the `range` loop of `cleanupOldRelayForwardings`, run over the
entries still to be visited. `clock i` is the system time read by the call of
`time.Since` in iteration `i`. The body deletes only the key being visited, so
every entry present when the loop starts is visited exactly once. -/
def cleanupLoop (clock : Nat → Time) : Nat → List (Sigma fun _ : GoString => Time) → TxMap → TxMap
  | _, [], m => m
  | i, ⟨txHash, t⟩ :: rest, m =>
    if 20 < Duration.Minutes (Since (clock i) t) then
      cleanupLoop clock (i + 1) rest (m.erase txHash)
    else
      cleanupLoop clock (i + 1) rest m

/-- Go `func cleanupOldRelayForwardings()`:
`for txHash, t := range txForwardedToRelay { if time.Since(t).Minutes() > 20 { delete(txForwardedToRelay, txHash) } }`.
Takes the map before the sweep and returns the map after it. -/
def cleanupOldRelayForwardings (clock : Nat → Time) (m : TxMap) : TxMap :=
  cleanupLoop clock 0 m.entries m

/-! ## HTTP: response writer and requests -/

/-- An `http.Header` holding one value per key. All keys set by this program are
already in canonical form. -/
abbrev Header := List (GoString × GoString)

/-- Go `h.Set(key, value)`: replace whatever `key` held by `value`. -/
def Header.Set (h : Header) (key value : GoString) : Header :=
  (key, value) :: h.filter (fun kv => kv.1 != key)

/-- Go `h.Get(key)`, with `none` for a key that is not set. -/
def Header.Get (h : Header) (key : GoString) : Option GoString :=
  (h.find? (fun kv => kv.1 == key)).map Prod.snd

/-- A value inside the JSON document of the health report: a timestamp, or a
string given by the text it denotes (escape sequences resolved). -/
inductive JsonValue where
  | time (t : ZonedTime)
  | string (s : GoString)
  deriving DecidableEq

/-- One `Write` to the response body: raw bytes, or the encoding of a JSON object
given by its members in order. -/
inductive Chunk where
  | bytes (b : GoString)
  | json (members : List (GoString × JsonValue))
  deriving DecidableEq

/-- The state of an `http.ResponseWriter`: the header map under construction,
the status line once written (`WriteHeader` fixes the status code and the headers
that are sent), and the body written so far. Headers that the server adds by
itself (`Date`, `Content-Length`, a sniffed `Content-Type`) are not recorded. -/
structure ResponseWriter where
  header : Header
  sent : Option (Nat × Header)
  body : List Chunk
  deriving DecidableEq

/-- The writer `net/http` hands to a handler for a new request. -/
def ResponseWriter.fresh : ResponseWriter := ⟨[], none, []⟩

/-- Go `w.Header().Set(key, value)`. -/
def ResponseWriter.SetHeader (w : ResponseWriter) (key value : GoString) : ResponseWriter :=
  { w with header := w.header.Set key value }

/-- Go `w.WriteHeader(code)`: the first call sends the status code with the
current headers; a later call is ignored. -/
def ResponseWriter.WriteHeader (w : ResponseWriter) (code : Nat) : ResponseWriter :=
  match w.sent with
  | some _ => w
  | none => { w with sent := some (code, w.header) }

/-- Go `w.Write(b)`: sends status 200 first if no status was written yet. -/
def ResponseWriter.Write (w : ResponseWriter) (c : Chunk) : ResponseWriter :=
  let w1 := w.WriteHeader 200
  { w1 with body := w1.body ++ [c] }

/-- The status code the client receives. -/
def ResponseWriter.status (w : ResponseWriter) : Option Nat := w.sent.map Prod.fst

/-- The value of a header the client receives, `none` when it is not sent. -/
def ResponseWriter.sentHeader (w : ResponseWriter) (key : GoString) : Option GoString :=
  w.sent.bind (fun p => Header.Get p.2 key)

/-- The fields of `*http.Request` that the handlers read. -/
structure Request where
  Method : GoString
  Path : GoString
  deriving DecidableEq

/-- Go `http.StatusFound`. -/
def StatusFound : Nat := 302

/-- Go `http.StatusOK`. -/
def StatusOK : Nat := 200

/-- Go `http.StatusInternalServerError`. -/
def StatusInternalServerError : Nat := 500

/-- Go `http.Redirect(w, r, url, code)` for an absolute `url` of ASCII characters
without HTML metacharacters (the one this program passes), for `code = 302`:
sets `Location`, sets a `Content-Type` unless one was set, writes the status and,
for a GET, a short HTML body. -/
def Redirect (w : ResponseWriter) (r : Request) (url : GoString) (code : Nat) : ResponseWriter :=
  let hadCT := (Header.Get w.header (str "Content-Type")).isSome
  let w1 := w.SetHeader (str "Location") url
  let w2 :=
    if !hadCT && (r.Method == str "GET" || r.Method == str "HEAD") then
      w1.SetHeader (str "Content-Type") (str "text/html; charset=utf-8")
    else w1
  let w3 := w2.WriteHeader code
  if !hadCT && r.Method == str "GET" then
    w3.Write (.bytes (str "<a href=\"" ++ url ++ str "\">Found</a>.\n\n"))
  else w3

/-! ## The server -/

/-- A `*ecdsa.PrivateKey`, kept as an uninterpreted reference. -/
abbrev PrivateKeyRef := Nat

/-- Go `type RpcEndPointServer struct`. -/
structure RpcEndPointServer where
  version : GoString
  startTime : ZonedTime
  listenAddress : GoString
  proxyUrl : GoString
  relayUrl : GoString
  relaySigningKey : PrivateKeyRef
  deriving DecidableEq

/-- Go `func NewRpcEndPointServer(...)`; `now` is the value returned by its call
of `Now()`. -/
def NewRpcEndPointServer (now : ZonedTime) (version listenAddress proxyUrl relayUrl : GoString)
    (relaySigningKey : PrivateKeyRef) : RpcEndPointServer :=
  { startTime := now
    version := version
    listenAddress := listenAddress
    proxyUrl := proxyUrl
    relayUrl := relayUrl
    relaySigningKey := relaySigningKey }

/-- The arguments of the call `NewRpcRequest(&respw, req, s.proxyUrl, s.relayUrl,
s.relaySigningKey)`. `NewRpcRequest` and `process` are defined in another file;
a delegated request is recorded with what is handed over. -/
structure RpcRequest where
  respw : ResponseWriter
  req : Request
  proxyUrl : GoString
  relayUrl : GoString
  relaySigningKey : PrivateKeyRef
  deriving DecidableEq

/-- How a handler invocation ends: it returns with the response it produced, it
ends in `request.process()` on a delegated request, or it panics. -/
inductive Handled where
  | returned (respw : ResponseWriter)
  | delegated (request : RpcRequest)
  | panicked (v : GoString)
  deriving DecidableEq

/-- Go `func (s *RpcEndPointServer) HandleHttpRequest(respw, req)`. -/
def HandleHttpRequest (s : RpcEndPointServer) (respw : ResponseWriter) (req : Request) : Handled :=
  let respw := respw.SetHeader (str "Access-Control-Allow-Origin") (str "*")
  let respw := respw.SetHeader (str "Access-Control-Allow-Headers") (str "Accept,Content-Type")
  if req.Method == str "GET" then
    .returned (Redirect respw req
      (str "https://docs.flashbots.net/flashbots-protect/rpc/quick-start/") StatusFound)
  else if req.Method == str "OPTIONS" then
    .returned (respw.WriteHeader StatusOK)
  else
    .delegated ⟨respw, req, s.proxyUrl, s.relayUrl, s.relaySigningKey⟩

/-- Go `type HealthResponse struct`, with JSON keys `time`, `startTime`, `version`. -/
structure HealthResponse where
  Now : ZonedTime
  StartTime : ZonedTime
  Version : GoString
  deriving DecidableEq

/-- The seconds of `t` on the civil clock of its location, counted like Unix
time: Go computes the date of `t` from `t.unixSec() + offset`. -/
def localSeconds (t : ZonedTime) : Int := t.instant / 1000000000 + t.offset

/-- Whether `t.Year()`, the year in the location of `t`, lies outside `[0, 9999]`:
`0000-01-01T00:00:00` is second `-62167219200` and `10000-01-01T00:00:00` is
second `253402300800` of the civil clock. -/
def yearOutOfRange (t : ZonedTime) : Bool :=
  decide (localSeconds t < -62167219200) || decide (253402300800 ≤ localSeconds t)

/-- Whether the hour of the zone printed for `t` is outside `[0, 23]`: Go prints
`zone := offset / 60` minutes as a sign, `zone/60` and `zone%60`. -/
def zoneHourOutOfRange (t : ZonedTime) : Bool :=
  decide (24 ≤ (Int.tdiv t.offset 60).natAbs / 60)

/-- Go `func (t Time) MarshalJSON() ([]byte, error)`: an RFC 3339 timestamp, or an
error when the year does not have four digits or (since Go 1.20) when the hour of
the zone offset does not have two digits below 24. -/
def Time.MarshalJSON (t : ZonedTime) : Except GoString JsonValue :=
  if yearOutOfRange t then
    .error (str "Time.MarshalJSON: year outside of range [0,9999]")
  else if zoneHourOutOfRange t then
    .error (str "Time.MarshalJSON: timezone hour outside of range [0,23]")
  else .ok (.time t)

/-- Whether `b` is a UTF-8 continuation byte, `0x80` to `0xBF`. -/
def isCont (b : UInt8) : Bool := decide (128 ≤ b.toNat) && decide (b.toNat ≤ 191)

/-- The size that Go `utf8.DecodeRuneInString(s)` returns for a well-formed
encoding at the head of `s`, and `0` where it returns `(RuneError, 1)` for an
invalid or truncated encoding (or `s` is empty). Overlong forms, surrogates and
values above `U+10FFFF` are invalid, through the range of the second byte. -/
def decodeSize : GoString → Nat
  | [] => 0
  | b0 :: rest =>
    if b0.toNat < 128 then 1
    else if b0.toNat < 194 then 0
    else if b0.toNat < 224 then
      match rest with
      | b1 :: _ => if isCont b1 then 2 else 0
      | _ => 0
    else if b0.toNat < 240 then
      match rest with
      | b1 :: b2 :: _ =>
        if decide ((if b0.toNat = 224 then 160 else 128) ≤ b1.toNat)
            && decide (b1.toNat ≤ (if b0.toNat = 237 then 159 else 191)) && isCont b2 then 3
        else 0
      | _ => 0
    else if b0.toNat < 245 then
      match rest with
      | b1 :: b2 :: b3 :: _ =>
        if decide ((if b0.toNat = 240 then 144 else 128) ≤ b1.toNat)
            && decide (b1.toNat ≤ (if b0.toNat = 244 then 143 else 191))
            && isCont b2 && isCont b3 then 4
        else 0
      | _ => 0
    else 0

/-- The scan of Go `utf8.ValidString`: `skip` is the number of bytes of the
current rune still to be passed over (Go advances its index by the size). -/
def validFrom : Nat → GoString → Bool
  | _, [] => true
  | skip + 1, _ :: rest => validFrom skip rest
  | 0, b :: rest =>
    match decodeSize (b :: rest) with
    | 0 => false
    | size + 1 => validFrom size rest

/-- Go `utf8.ValidString(s)`: `s` consists of well-formed UTF-8 encodings only. -/
def ValidString (s : GoString) : Bool := validFrom 0 s

/-- The scan of the JSON encoder over a string: a well-formed rune is kept
(`i += size`), a byte at which decoding gives `(RuneError, 1)` is replaced by
`U+FFFD`, whose encoding is `EF BF BD`, and the scan goes on at the next byte. -/
def coerceFrom : Nat → GoString → GoString
  | _, [] => []
  | skip + 1, b :: rest => b :: coerceFrom skip rest
  | 0, b :: rest =>
    match decodeSize (b :: rest) with
    | 0 => [239, 191, 189] ++ coerceFrom 0 rest
    | size + 1 => b :: coerceFrom size rest

/-- The text that the JSON encoding of the Go string `s` denotes: `s` with every
invalid byte replaced by `U+FFFD`. -/
def toValidUTF8 (s : GoString) : GoString := coerceFrom 0 s

/-- Go `json.Marshal(res)` for a `HealthResponse`: the members in field order
under their JSON keys; the error of a member's `MarshalJSON` is returned, wrapped
in the encoder's `MarshalerError` message; a string is coerced to valid UTF-8. -/
def jsonMarshal (res : HealthResponse) : Except GoString Chunk :=
  match Time.MarshalJSON res.Now, Time.MarshalJSON res.StartTime with
  | .error err, _ => .error (str "json: error calling MarshalJSON for type time.Time: " ++ err)
  | .ok _, .error err => .error (str "json: error calling MarshalJSON for type time.Time: " ++ err)
  | .ok now, .ok startTime =>
    .ok (.json [(str "time", now), (str "startTime", startTime),
      (str "version", .string (toValidUTF8 res.Version))])

/-- Go `log.Panicln(a, b)`: prints the operands, separated by a space and ended
by a newline, to the logger, then calls `panic` with that message. It never
returns normally. -/
def logPanicln (a b : GoString) : Except GoString Unit :=
  .error (a ++ str " " ++ b ++ str "\n")

/-- Go `func (s *RpcEndPointServer) handleHealthRequest(respw, req)`; `now` is
the value returned by its call of `Now()`. A panic is the `error` result. -/
def handleHealthRequest (now : ZonedTime) (s : RpcEndPointServer) (respw : ResponseWriter)
    (_req : Request) : Except GoString ResponseWriter :=
  let res : HealthResponse := { Now := now, StartTime := s.startTime, Version := s.version }
  match jsonMarshal res with
  | .error err => do
    logPanicln (str "healthCheck json error:") err
    return respw.WriteHeader StatusInternalServerError
  | .ok jsonResp =>
    let respw := respw.WriteHeader StatusOK
    return respw.Write jsonResp

/-- The routing set up by `Start`: `http.HandleFunc("/", s.HandleHttpRequest)` and
`http.HandleFunc("/health", s.handleHealthRequest)` on the default mux, for the
two registered paths themselves: `/health` goes to the second handler, `/` to
the first, each with a fresh response writer. For any other path the mux may
answer by itself (it redirects a path that is not in clean form); those paths
are left out (`none`). -/
def ServeHTTP (now : ZonedTime) (s : RpcEndPointServer) (req : Request) : Option Handled :=
  if req.Path == str "/health" then
    match handleHealthRequest now s ResponseWriter.fresh req with
    | .ok respw => some (.returned respw)
    | .error v => some (.panicked v)
  else if req.Path == str "/" then
    some (HandleHttpRequest s ResponseWriter.fresh req)
  else
    none

/-! ## Blacklist filter: properties -/

theorem HasPrefix_iff (s p : GoString) : HasPrefix s p = true ↔ p <+: s := by
  unfold HasPrefix
  rw [List.prefix_iff_eq_take]
  simp only [Bool.and_eq_true, decide_eq_true_eq, beq_iff_eq]
  constructor
  · rintro ⟨-, h⟩
    exact h.symm
  · intro h
    refine ⟨?_, h.symm⟩
    have := congrArg List.length h
    rw [List.length_take] at this
    omega

theorem IsBlacklistedIn_iff (ips : List GoString) (ip : GoString) :
    IsBlacklistedIn ips ip = true ↔ ∃ p ∈ ips, p <+: ip := by
  induction ips with
  | nil => simp [IsBlacklistedIn]
  | cons p rest ih =>
    unfold IsBlacklistedIn
    by_cases h : HasPrefix ip p = true
    · simp only [h, if_true, List.mem_cons, true_iff]
      exact ⟨p, Or.inl rfl, (HasPrefix_iff ip p).mp h⟩
    · have hp : ¬ p <+: ip := fun hp => h ((HasPrefix_iff ip p).mpr hp)
      simp only [h, if_false, ih, List.mem_cons, Bool.false_eq_true]
      constructor
      · rintro ⟨q, hq, hpre⟩
        exact ⟨q, Or.inr hq, hpre⟩
      · rintro ⟨q, hq | hq, hpre⟩
        · exact absurd (hq ▸ hpre) hp
        · exact ⟨q, hq, hpre⟩

/-! ## `float64` rounding and `Duration.Minutes` -/

theorem roundHalfEven_err (x : ℚ) : |(roundHalfEven x : ℚ) - x| ≤ 1 / 2 := by
  have h1 := Int.floor_le x
  have h2 := Int.lt_floor_add_one x
  unfold roundHalfEven
  rw [abs_le]
  split_ifs <;> constructor <;> push_cast <;> linarith

theorem roundHalfEven_intCast (n : ℤ) : roundHalfEven (n : ℚ) = n := by
  simp [roundHalfEven]

theorem f64_err (x : ℚ) : |f64 x - x| ≤ |x| / 2 ^ 53 := by
  unfold f64
  split_ifs with h0
  · simp [h0]
  · have hx : 0 < |x| := abs_pos.mpr h0
    set e := Int.log 2 |x| with he
    have hu : (0 : ℚ) < 2 ^ (e - 52) := by positivity
    have hle : (2 : ℚ) ^ e ≤ |x| := by
      have := Int.zpow_log_le_self (b := 2) (r := |x|) (by norm_num) hx
      simpa using this
    have hr := roundHalfEven_err (x / 2 ^ (e - 52))
    have key : (roundHalfEven (x / 2 ^ (e - 52)) : ℚ) * 2 ^ (e - 52) - x
        = ((roundHalfEven (x / 2 ^ (e - 52)) : ℚ) - x / 2 ^ (e - 52)) * 2 ^ (e - 52) := by
      field_simp
    rw [key, abs_mul, abs_of_pos hu]
    have h2 : (2 : ℚ) ^ (e - 52) = 2 ^ e / 2 ^ 52 := by
      rw [zpow_sub₀ (by norm_num)]; norm_num
    calc |(roundHalfEven (x / 2 ^ (e - 52)) : ℚ) - x / 2 ^ (e - 52)| * 2 ^ (e - 52)
        ≤ 1 / 2 * 2 ^ (e - 52) := by gcongr
      _ = 2 ^ e / 2 ^ 53 := by rw [h2]; ring
      _ ≤ |x| / 2 ^ 53 := by gcongr

theorem f64_intCast (n : ℤ) (h : |n| < 2 ^ 53) : f64 (n : ℚ) = n := by
  unfold f64
  split_ifs with h0
  · simp [h0]
  · have hn : n ≠ 0 := by exact_mod_cast h0
    have hx : (0 : ℚ) < |(n : ℚ)| := abs_pos.mpr h0
    set e := Int.log 2 |(n : ℚ)| with he
    have he1 : e < 53 := by
      rw [he, ← Int.lt_zpow_iff_log_lt (by norm_num) hx]
      have : |(n : ℚ)| = ((|n| : ℤ) : ℚ) := by simp
      rw [this]
      exact_mod_cast h
    obtain ⟨k, hk⟩ : ∃ k : ℕ, (k : ℤ) = 52 - e := ⟨(52 - e).toNat, by omega⟩
    have hpow : (2 : ℚ) ^ (e - 52) = ((2 : ℚ) ^ k)⁻¹ := by
      have : e - 52 = -(k : ℤ) := by omega
      rw [this, zpow_neg, zpow_natCast]
    have hdiv : (n : ℚ) / 2 ^ (e - 52) = ((n * 2 ^ k : ℤ) : ℚ) := by
      rw [hpow]; push_cast; field_simp
    rw [hdiv, roundHalfEven_intCast, hpow]
    push_cast
    field_simp

theorem f64_zero : f64 0 = 0 := by simp [f64]

theorem f64_nonpos {x : ℚ} (hx : x ≤ 0) : f64 x ≤ 0 := by
  have h := f64_err x
  rw [abs_le, abs_of_nonpos hx] at h
  have : -x / 2 ^ 53 ≤ -x := by
    apply div_le_self (by linarith); norm_num
  linarith [h.2]

theorem f64_lower {x : ℚ} (hx : 0 ≤ x) : x * (1 - 1 / 2 ^ 53) ≤ f64 x := by
  have h := f64_err x
  rw [abs_le, abs_of_nonneg hx] at h
  linarith [h.1]

theorem f64_upper {x : ℚ} (hx : 0 ≤ x) : f64 x ≤ x * (1 + 1 / 2 ^ 53) := by
  have h := f64_err x
  rw [abs_le, abs_of_nonneg hx] at h
  linarith [h.2]

theorem tdiv_tmod_nonneg {d : Int} (hd : 0 ≤ d) :
    0 ≤ Int.tdiv d 60000000000 ∧ 0 ≤ Int.tmod d 60000000000 ∧ Int.tmod d 60000000000 < 60000000000 :=
  ⟨Int.tdiv_nonneg hd (by norm_num), Int.tmod_nonneg _ hd, Int.tmod_lt_of_pos _ (by norm_num)⟩

theorem tdiv_tmod_nonpos {d : Int} (hd : d ≤ 0) :
    Int.tdiv d 60000000000 ≤ 0 ∧ Int.tmod d 60000000000 ≤ 0
      ∧ -60000000000 < Int.tmod d 60000000000 := by
  have h1 : Int.tdiv d 60000000000 = -(Int.tdiv (-d) 60000000000) := by
    rw [Int.neg_tdiv, neg_neg]
  have h2 := tdiv_tmod_nonneg (d := -d) (by omega)
  have h3 := Int.tdiv_add_tmod d 60000000000
  have h4 := Int.tdiv_add_tmod (-d) 60000000000
  refine ⟨?_, ?_, ?_⟩ <;> omega

theorem minutes_core (d m n : Int) (hdm : 60000000000 * m + n = d)
    (hlo : -9223372036854775808 ≤ d) (hhi : d ≤ 9223372036854775807)
    (hP : 0 ≤ d → 0 ≤ m ∧ 0 ≤ n ∧ n < 60000000000)
    (hN : d ≤ 0 → m ≤ 0 ∧ n ≤ 0 ∧ -60000000000 < n) :
    20 < f64 (f64 (m : ℚ) + f64 (f64 (n : ℚ) / 60000000000)) ↔ 1200000000000 < d := by
  have hmb : |m| < 2 ^ 53 := by
    rw [abs_lt]
    norm_num
    rcases le_total 0 d with h | h
    · have := hP h
      constructor <;> omega
    · have := hN h
      constructor <;> omega
  have hnb : |n| < 2 ^ 53 := by
    rw [abs_lt]
    norm_num
    rcases le_total 0 d with h | h
    · have := hP h
      constructor <;> omega
    · have := hN h
      constructor <;> omega
  rw [f64_intCast m hmb, f64_intCast n hnb]
  clear hmb hnb
  rcases lt_or_le d 0 with hneg | hpos
  · -- negative durations are never older than the window
    obtain ⟨hm0, hn0, -⟩ := hN hneg.le
    have hq : f64 ((n : ℚ) / 60000000000) ≤ 0 := by
      apply f64_nonpos
      apply div_nonpos_of_nonpos_of_nonneg _ (by norm_num)
      exact_mod_cast hn0
    have hs : f64 ((m : ℚ) + f64 ((n : ℚ) / 60000000000)) ≤ 0 := by
      apply f64_nonpos
      have : (m : ℚ) ≤ 0 := by exact_mod_cast hm0
      linarith
    constructor
    · intro h; linarith
    · intro h; omega
  · obtain ⟨hm0, hn0, hn1⟩ := hP hpos
    have hmq : (0 : ℚ) ≤ m := by exact_mod_cast hm0
    have hnq : (0 : ℚ) ≤ n := by exact_mod_cast hn0
    have hx0 : (0 : ℚ) ≤ (n : ℚ) / 60000000000 := by positivity
    have hqlo := f64_lower hx0
    have hqhi := f64_upper hx0
    have hq0 : 0 ≤ f64 ((n : ℚ) / 60000000000) := by
      refine le_trans ?_ hqlo
      apply mul_nonneg hx0; norm_num
    have hs0 : (0 : ℚ) ≤ (m : ℚ) + f64 ((n : ℚ) / 60000000000) := by linarith
    have hslo := f64_lower hs0
    have hshi := f64_upper hs0
    constructor
    · intro h
      by_contra hcon
      have hd : d ≤ 1200000000000 := by omega
      rcases (by omega : m = 20 ∨ m ≤ 19) with h20 | h19
      · have hn00 : n = 0 := by omega
        rw [h20, hn00] at h
        norm_num [f64_zero] at h
        have := f64_intCast 20 (by norm_num)
        norm_num at this
        rw [this] at h
        exact lt_irrefl _ h
      · have hm19 : (m : ℚ) ≤ 19 := by exact_mod_cast h19
        have hn2 : (n : ℚ) ≤ 59999999999 := by
          have : n ≤ 59999999999 := by omega
          exact_mod_cast this
        have hx1 : (n : ℚ) / 60000000000 ≤ 59999999999 / 60000000000 := by
          apply div_le_div_of_nonneg_right hn2; norm_num
        have hq1 : f64 ((n : ℚ) / 60000000000) ≤ 59999999999 / 60000000000 * (1 + 1 / 2 ^ 53) := by
          refine le_trans hqhi ?_
          apply mul_le_mul_of_nonneg_right hx1; norm_num
        have hs1 : (m : ℚ) + f64 ((n : ℚ) / 60000000000)
            ≤ 19 + 59999999999 / 60000000000 * (1 + 1 / 2 ^ 53) := by linarith
        have hf : f64 ((m : ℚ) + f64 ((n : ℚ) / 60000000000))
            ≤ (19 + 59999999999 / 60000000000 * (1 + 1 / 2 ^ 53)) * (1 + 1 / 2 ^ 53) := by
          refine le_trans hshi ?_
          apply mul_le_mul_of_nonneg_right hs1; norm_num
        have : (19 + 59999999999 / 60000000000 * (1 + 1 / 2 ^ 53)) * (1 + 1 / 2 ^ 53) < (20 : ℚ) := by
          norm_num
        linarith
    · intro h
      have hm20 : 20 ≤ m := by omega
      rcases (by omega : m = 20 ∨ 21 ≤ m) with h20 | h21
      · have hn1 : (1 : ℚ) ≤ n := by
          have : 1 ≤ n := by omega
          exact_mod_cast this
        have hx1 : (1 : ℚ) / 60000000000 ≤ (n : ℚ) / 60000000000 := by
          apply div_le_div_of_nonneg_right hn1; norm_num
        have hq1 : 1 / 60000000000 * (1 - 1 / 2 ^ 53) ≤ f64 ((n : ℚ) / 60000000000) := by
          refine le_trans ?_ hqlo
          apply mul_le_mul_of_nonneg_right hx1; norm_num
        have hs1 : (20 : ℚ) + 1 / 60000000000 * (1 - 1 / 2 ^ 53)
            ≤ (m : ℚ) + f64 ((n : ℚ) / 60000000000) := by
          rw [h20]; push_cast; linarith
        have hf : (20 + 1 / 60000000000 * (1 - 1 / 2 ^ 53)) * (1 - 1 / 2 ^ 53)
            ≤ f64 ((m : ℚ) + f64 ((n : ℚ) / 60000000000)) := by
          refine le_trans ?_ hslo
          apply mul_le_mul_of_nonneg_right hs1; norm_num
        have : (20 : ℚ) < (20 + 1 / 60000000000 * (1 - 1 / 2 ^ 53)) * (1 - 1 / 2 ^ 53) := by
          norm_num
        linarith
      · have hm21 : (21 : ℚ) ≤ m := by exact_mod_cast h21
        have hs1 : (21 : ℚ) ≤ (m : ℚ) + f64 ((n : ℚ) / 60000000000) := by linarith
        have hf : 21 * (1 - 1 / 2 ^ 53) ≤ f64 ((m : ℚ) + f64 ((n : ℚ) / 60000000000)) := by
          refine le_trans ?_ hslo
          apply mul_le_mul_of_nonneg_right hs1; norm_num
        have : (20 : ℚ) < 21 * (1 - 1 / 2 ^ 53) := by norm_num
        linarith

theorem Minutes_gt_twenty_iff (d : Duration) (hlo : minDuration ≤ d) (hhi : d ≤ maxDuration) :
    20 < Duration.Minutes d ↔ 20 * Minute < d := by
  have h := minutes_core d (Int.tdiv d 60000000000) (Int.tmod d 60000000000)
    (Int.tdiv_add_tmod d 60000000000) (by simpa [minDuration] using hlo)
    (by simpa [maxDuration] using hhi) tdiv_tmod_nonneg tdiv_tmod_nonpos
  simpa [Duration.Minutes, Minute] using h

theorem Sub_bounds (t u : Time) : minDuration ≤ Time.Sub t u ∧ Time.Sub t u ≤ maxDuration := by
  unfold Time.Sub
  have h1 : minDuration = -9223372036854775808 := by norm_num [minDuration]
  have h2 : maxDuration = 9223372036854775807 := by norm_num [maxDuration]
  rw [h1, h2]
  split_ifs <;> constructor <;> linarith

/-- The test of the sweep, `time.Since(t).Minutes() > 20` with the clock reading
`now`, holds exactly when `now - t` is more than twenty minutes. -/
theorem old_iff (now t : Time) :
    20 < Duration.Minutes (Since now t) ↔ 20 * Minute < now - t := by
  obtain ⟨hlo, hhi⟩ := Sub_bounds now t
  rw [Since, Minutes_gt_twenty_iff _ hlo hhi]
  unfold Time.Sub
  have h1 : minDuration = -9223372036854775808 := by norm_num [minDuration]
  have h2 : maxDuration = 9223372036854775807 := by norm_num [maxDuration]
  have h3 : (20 : Duration) * Minute = 1200000000000 := by norm_num [Minute]
  rw [h1, h2, h3]
  split_ifs <;> constructor <;> intro h <;> linarith

/-! ## The sweep -/

theorem cleanupLoop_frame (clock : Nat → Time) (es : List (Sigma fun _ : GoString => Time)) :
    ∀ (i : Nat) (m : TxMap) (k : GoString),
      (cleanupLoop clock i es m).lookup k = none
        ∨ (cleanupLoop clock i es m).lookup k = m.lookup k := by
  induction es with
  | nil => intro i m k; exact Or.inr rfl
  | cons e rest ih =>
    intro i m k
    obtain ⟨txHash, t⟩ := e
    unfold cleanupLoop
    split_ifs with hold
    · rcases ih (i + 1) (m.erase txHash) k with h | h
      · exact Or.inl h
      · by_cases hk : k = txHash
        · left; rw [h, hk, AList.lookup_erase]
        · right; rw [h, AList.lookup_erase_ne hk]
    · exact ih (i + 1) m k

theorem cleanupLoop_keeps (clock : Nat → Time) (k : GoString)
    (es : List (Sigma fun _ : GoString => Time)) :
    ∀ (i : Nat) (m : TxMap),
      (∀ t, (⟨k, t⟩ : Sigma fun _ : GoString => Time) ∈ es →
        ∀ n, ¬ 20 < Duration.Minutes (Since (clock n) t)) →
      (cleanupLoop clock i es m).lookup k = m.lookup k := by
  induction es with
  | nil => intro i m _; rfl
  | cons e rest ih =>
    intro i m hyoung
    obtain ⟨txHash, t⟩ := e
    have hrest : ∀ t, (⟨k, t⟩ : Sigma fun _ : GoString => Time) ∈ rest →
        ∀ n, ¬ 20 < Duration.Minutes (Since (clock n) t) :=
      fun t ht => hyoung t (List.mem_cons_of_mem _ ht)
    unfold cleanupLoop
    split_ifs with hold
    · have hk : k ≠ txHash := by
        rintro rfl
        exact hyoung t (List.mem_cons_self _ _) i hold
      rw [ih (i + 1) (m.erase txHash) hrest, AList.lookup_erase_ne hk]
    · exact ih (i + 1) m hrest

theorem cleanupLoop_removes (clock : Nat → Time) (k : GoString)
    (es : List (Sigma fun _ : GoString => Time)) :
    ∀ (i : Nat) (m : TxMap),
      (∃ t, (⟨k, t⟩ : Sigma fun _ : GoString => Time) ∈ es
        ∧ ∀ n, 20 < Duration.Minutes (Since (clock n) t)) →
      (cleanupLoop clock i es m).lookup k = none := by
  induction es with
  | nil => rintro i m ⟨t, ht, -⟩; simp at ht
  | cons e rest ih =>
    rintro i m ⟨t, ht, hold⟩
    obtain ⟨txHash, t0⟩ := e
    rcases List.mem_cons.mp ht with heq | hmem
    · cases heq
      unfold cleanupLoop
      rw [if_pos (hold i)]
      rcases cleanupLoop_frame clock rest (i + 1) (m.erase k) k with h | h
      · exact h
      · rw [h, AList.lookup_erase]
    · unfold cleanupLoop
      split_ifs
      · exact ih (i + 1) _ ⟨t, hmem, hold⟩
      · exact ih (i + 1) _ ⟨t, hmem, hold⟩

theorem mem_entries_iff_lookup (m : TxMap) (k : GoString) (t : Time) :
    (⟨k, t⟩ : Sigma fun _ : GoString => Time) ∈ m.entries ↔ m.lookup k = some t := by
  rw [← AList.mem_lookup_iff]
  exact Option.mem_def

theorem cleanup_lookup_frame (clock : Nat → Time) (m : TxMap) (k : GoString) :
    (cleanupOldRelayForwardings clock m).lookup k = none
      ∨ (cleanupOldRelayForwardings clock m).lookup k = m.lookup k :=
  cleanupLoop_frame clock m.entries 0 m k

theorem cleanup_lookup_of_old (clock : Nat → Time) (m : TxMap) (k : GoString) (t : Time)
    (hk : m.lookup k = some t) (hold : ∀ n, 20 * Minute < clock n - t) :
    (cleanupOldRelayForwardings clock m).lookup k = none :=
  cleanupLoop_removes clock k m.entries 0 m
    ⟨t, (mem_entries_iff_lookup m k t).mpr hk, fun n => (old_iff (clock n) t).mpr (hold n)⟩

theorem cleanup_lookup_of_not_old (clock : Nat → Time) (m : TxMap) (k : GoString) (t : Time)
    (hk : m.lookup k = some t) (hyoung : ∀ n, clock n - t ≤ 20 * Minute) :
    (cleanupOldRelayForwardings clock m).lookup k = some t := by
  rw [← hk]
  refine cleanupLoop_keeps clock k m.entries 0 m ?_
  intro t1 ht1 n hold
  have h1 : m.lookup k = some t1 := (mem_entries_iff_lookup m k t1).mp ht1
  have ht : t1 = t := Option.some.inj (h1.symm.trans hk)
  rw [ht, old_iff] at hold
  exact absurd (hyoung n) (not_le.mpr hold)

/-! ## JSON strings -/

theorem coerceFrom_of_valid (s : GoString) :
    ∀ skip : Nat, validFrom skip s = true → coerceFrom skip s = s := by
  induction s with
  | nil => intro skip _; cases skip <;> rfl
  | cons b rest ih =>
    intro skip hvalid
    cases skip with
    | succ n =>
      simp only [validFrom] at hvalid
      simp only [coerceFrom, ih n hvalid]
    | zero =>
      unfold validFrom at hvalid
      unfold coerceFrom
      cases hsize : decodeSize (b :: rest) with
      | zero => rw [hsize] at hvalid; exact absurd hvalid (by simp)
      | succ size =>
        rw [hsize] at hvalid
        simp only [ih size hvalid]

theorem toValidUTF8_of_valid (s : GoString) (h : ValidString s = true) : toValidUTF8 s = s :=
  coerceFrom_of_valid s 0 h

/-! ## Claims on the blacklist filter -/

/-- C1: `IsBlacklisted` answers true exactly when some entry of the configured
blacklist is a literal prefix of the origin, for any blacklist value and for the
package variable `blacklistedIps`; with an empty blacklist it answers false for
every origin. -/
theorem IsBlacklisted_iff_exists_entry (ips : List GoString) (ip : GoString) :
    (IsBlacklistedIn ips ip = true ↔ ∃ p ∈ ips, p <+: ip)
      ∧ (IsBlacklisted ip = true ↔ ∃ p ∈ blacklistedIps, p <+: ip)
      ∧ IsBlacklistedIn [] ip = false :=
  ⟨IsBlacklistedIn_iff ips ip, IsBlacklistedIn_iff blacklistedIps ip, rfl⟩

/-- C9: with the value of `blacklistedIps` written in the source, the origin
`127.0.0.2` is blacklisted, and so is every origin that starts with it, such as
`127.0.0.200`; the source comment says that no IP is blacklisted. -/
theorem IsBlacklisted_shipped_entry :
    IsBlacklisted (str "127.0.0.2") = true ∧ IsBlacklisted (str "127.0.0.200") = true := by
  decide

/-! ## Claims on the dedup map -/

/-- C2: after a sweep whose clock readings are not before `now` (in particular a
sweep that runs at time `now`), every entry whose age `now - t` exceeds twenty
minutes has been removed, so the map holds no entry older than twenty minutes. -/
theorem cleanup_removes_expired (clock : Nat → Time) (now : Time) (m : TxMap)
    (hclock : ∀ n, now ≤ clock n) :
    (∀ k t, m.lookup k = some t → 20 * Minute < now - t →
        (cleanupOldRelayForwardings clock m).lookup k = none)
      ∧ (∀ k t, (cleanupOldRelayForwardings clock m).lookup k = some t →
          now - t ≤ 20 * Minute) := by
  have hrem : ∀ k t, m.lookup k = some t → 20 * Minute < now - t →
      (cleanupOldRelayForwardings clock m).lookup k = none := by
    intro k t hk hage
    refine cleanup_lookup_of_old clock m k t hk (fun n => ?_)
    have := hclock n
    linarith
  refine ⟨hrem, ?_⟩
  intro k t hk
  by_contra hage
  rcases cleanup_lookup_frame clock m k with h | h
  · rw [h] at hk; exact Option.noConfusion hk
  · rw [hrem k t (h ▸ hk) (not_le.mp hage)] at hk
    exact Option.noConfusion hk

theorem cleanup_removes_expired_witness :
    (∀ n : Nat, (21 * Minute : Time) ≤ (fun _ => 21 * Minute) n)
      ∧ (cleanupOldRelayForwardings (fun _ => 21 * Minute)
          (AList.singleton (str "0xabc") 0 : TxMap)).lookup (str "0xabc") = none :=
  ⟨fun _ => le_refl _,
   (cleanup_removes_expired (fun _ => 21 * Minute) (21 * Minute)
      (AList.singleton (str "0xabc") 0 : TxMap) (fun _ => le_refl _)).1
      (str "0xabc") 0 (by decide) (by decide)⟩

/-- C3: a sweep whose clock readings are not after `now` (in particular a sweep
that runs at time `now`) keeps every entry younger than twenty minutes, under
its key and with its timestamp unchanged, and adds no key. -/
theorem cleanup_keeps_young (clock : Nat → Time) (now : Time) (m : TxMap)
    (hclock : ∀ n, clock n ≤ now) :
    (∀ k t, m.lookup k = some t → now - t < 20 * Minute →
        (cleanupOldRelayForwardings clock m).lookup k = some t)
      ∧ (∀ k, k ∈ cleanupOldRelayForwardings clock m → k ∈ m) := by
  constructor
  · intro k t hk hage
    refine cleanup_lookup_of_not_old clock m k t hk (fun n => ?_)
    have := hclock n
    linarith
  · intro k hmem
    by_contra hnot
    rcases cleanup_lookup_frame clock m k with h | h
    · exact (AList.lookup_eq_none.mp h) hmem
    · rw [AList.lookup_eq_none.mpr hnot] at h
      exact (AList.lookup_eq_none.mp h) hmem

theorem cleanup_keeps_young_witness :
    (∀ n : Nat, (fun _ => 19 * Minute) n ≤ (19 * Minute : Time))
      ∧ (cleanupOldRelayForwardings (fun _ => 19 * Minute)
          (AList.singleton (str "0xabc") 0 : TxMap)).lookup (str "0xabc") = some 0 :=
  ⟨fun _ => le_refl _,
   (cleanup_keeps_young (fun _ => 19 * Minute) (19 * Minute)
      (AList.singleton (str "0xabc") 0 : TxMap) (fun _ => le_refl _)).1
      (str "0xabc") 0 (by decide) (by decide)⟩

/-- C4 as stated fails at the boundary: the entry `0xabc` marked at time `0` is
still in the map after a sweep that runs exactly twenty minutes later. -/
theorem sweep_at_twenty_minutes_keeps :
    (AList.singleton (str "0xabc") 0 : TxMap).lookup (str "0xabc") = some 0
      ∧ (0 : Time) + 20 * Minute ≤ 20 * Minute
      ∧ (cleanupOldRelayForwardings (fun _ => 20 * Minute)
          (AList.singleton (str "0xabc") 0 : TxMap)).lookup (str "0xabc") = some 0 :=
  ⟨by decide, by decide,
   cleanup_lookup_of_not_old (fun _ => 20 * Minute) _ (str "0xabc") 0 (by decide)
     (fun _ => show (20 * Minute : Time) - 0 ≤ 20 * Minute by decide)⟩

/-- C4, amended: if the map holds the entry `h -> t` when a sweep starts and the
sweep runs at a time `t2` later than `t` plus twenty minutes (its clock readings
are not before `t2`), then `h` is absent from the map after the sweep. -/
theorem sweep_after_window_forgets (clock : Nat → Time) (m : TxMap) (h : GoString)
    (t t2 : Time) (hmark : m.lookup h = some t) (hlate : t + 20 * Minute < t2)
    (hclock : ∀ n, t2 ≤ clock n) :
    (cleanupOldRelayForwardings clock m).lookup h = none := by
  refine cleanup_lookup_of_old clock m h t hmark (fun n => ?_)
  have := hclock n
  linarith

theorem sweep_after_window_forgets_witness :
    (AList.singleton (str "0xabc") 0 : TxMap).lookup (str "0xabc") = some 0
      ∧ (0 : Time) + 20 * Minute < 21 * Minute
      ∧ (∀ n : Nat, (21 * Minute : Time) ≤ (fun _ => 21 * Minute) n)
      ∧ (cleanupOldRelayForwardings (fun _ => 21 * Minute)
          (AList.singleton (str "0xabc") 0 : TxMap)).lookup (str "0xabc") = none :=
  ⟨by decide, by decide, fun _ => le_refl _,
   sweep_after_window_forgets (fun _ => 21 * Minute) (AList.singleton (str "0xabc") 0 : TxMap)
     (str "0xabc") 0 (21 * Minute) (by decide) (by decide) (fun _ => le_refl _)⟩

/-! ## Claims on the HTTP handlers -/

set_option maxRecDepth 20000

/-- C8: for every request with method GET, on the root path as on any other path
routed to it, `HandleHttpRequest` returns having answered 302 with `Location`
set to the documentation URL and both CORS headers sent, without delegating to
the request processor; the mux routes the root path to this handler. -/
theorem HandleHttpRequest_GET_redirects (now : ZonedTime) (s : RpcEndPointServer)
    (req : Request) (hget : req.Method = str "GET") :
    (∃ w, HandleHttpRequest s ResponseWriter.fresh req = .returned w
        ∧ w.status = some 302
        ∧ w.sentHeader (str "Location")
            = some (str "https://docs.flashbots.net/flashbots-protect/rpc/quick-start/")
        ∧ w.sentHeader (str "Access-Control-Allow-Origin") = some (str "*")
        ∧ w.sentHeader (str "Access-Control-Allow-Headers") = some (str "Accept,Content-Type"))
      ∧ (req.Path = str "/" →
          ServeHTTP now s req = some (HandleHttpRequest s ResponseWriter.fresh req)) := by
  constructor
  · refine ⟨Redirect ((ResponseWriter.fresh.SetHeader (str "Access-Control-Allow-Origin")
        (str "*")).SetHeader (str "Access-Control-Allow-Headers") (str "Accept,Content-Type"))
      req (str "https://docs.flashbots.net/flashbots-protect/rpc/quick-start/") StatusFound,
      ?_, ?_, ?_, ?_, ?_⟩
    · simp only [HandleHttpRequest, hget, beq_self_eq_true, if_true]
    · simp only [Redirect, hget]; decide
    · simp only [Redirect, hget]; decide
    · simp only [Redirect, hget]; decide
    · simp only [Redirect, hget]; decide
  · intro hpath
    simp only [ServeHTTP, hpath]
    rfl

theorem HandleHttpRequest_GET_redirects_witness :
    ∃ w, HandleHttpRequest
          (NewRpcEndPointServer ⟨0, 0⟩ (str "v1") (str ":9000") (str "p") (str "r") 0)
          ResponseWriter.fresh ⟨str "GET", str "/"⟩ = .returned w
        ∧ w.status = some 302
        ∧ w.sentHeader (str "Location")
            = some (str "https://docs.flashbots.net/flashbots-protect/rpc/quick-start/")
        ∧ w.sentHeader (str "Access-Control-Allow-Origin") = some (str "*")
        ∧ w.sentHeader (str "Access-Control-Allow-Headers") = some (str "Accept,Content-Type") :=
  (HandleHttpRequest_GET_redirects ⟨0, 0⟩
    (NewRpcEndPointServer ⟨0, 0⟩ (str "v1") (str ":9000") (str "p") (str "r") 0)
    ⟨str "GET", str "/"⟩ rfl).1

/-- C5: the response to `GET /health` is status 200 with neither
`Access-Control-Allow-Origin` nor `Access-Control-Allow-Headers` sent:
`handleHealthRequest` sets no header, unlike `HandleHttpRequest`. -/
theorem health_response_lacks_cors :
    ∃ w, ServeHTTP ⟨0, 0⟩
          (NewRpcEndPointServer ⟨0, 0⟩ (str "v1") (str ":9000") (str "p") (str "r") 0)
          ⟨str "GET", str "/health"⟩ = some (.returned w)
        ∧ w.status = some 200
        ∧ w.sentHeader (str "Access-Control-Allow-Origin") = none
        ∧ w.sentHeader (str "Access-Control-Allow-Headers") = none :=
  ⟨_, rfl, by decide, by decide, by decide⟩

/-- C6: when the serialization of the health response fails (here the current
time is `10000-01-01T00:00:00Z`), `handleHealthRequest` panics through
`log.Panicln`; it does not return, and no status 500 is written. -/
theorem health_marshal_failure_panics :
    handleHealthRequest ⟨253402300800 * 1000000000, 0⟩
        (NewRpcEndPointServer ⟨0, 0⟩ (str "v1") (str ":9000") (str "p") (str "r") 0)
        ResponseWriter.fresh ⟨str "GET", str "/health"⟩
      = .error (str "healthCheck json error: json: error calling MarshalJSON for type time.Time: Time.MarshalJSON: year outside of range [0,9999]\n") := by
  rfl

/-- C7 as stated fails in two ways. For a time whose year, in its location, has
more than four digits the handler does not answer 200 but ends in a panic: with
`T0` the Unix epoch, at `T1 = 10000-01-01T00:00:00Z`, and at
`T1 = 9999-12-31T23:00:00Z` read in a zone two hours east of UTC. For the
version string made of the single byte `0xFF`, not valid UTF-8, the `version`
member of the answer is `U+FFFD` (bytes `EF BF BD`) and not the version. -/
theorem health_not_for_every_input :
    (0 : Time) ≤ 253402300800 * 1000000000
      ∧ (handleHealthRequest ⟨253402300800 * 1000000000, 0⟩
          (NewRpcEndPointServer ⟨0, 0⟩ (str "v1") (str ":9000") (str "p") (str "r") 0)
          ResponseWriter.fresh ⟨str "GET", str "/health"⟩).toOption = none
      ∧ (0 : Time) ≤ 253402297200 * 1000000000
      ∧ (handleHealthRequest ⟨253402297200 * 1000000000, 7200⟩
          (NewRpcEndPointServer ⟨0, 0⟩ (str "v1") (str ":9000") (str "p") (str "r") 0)
          ResponseWriter.fresh ⟨str "GET", str "/health"⟩).toOption = none
      ∧ handleHealthRequest ⟨0, 0⟩
          (NewRpcEndPointServer ⟨0, 0⟩ [255] (str ":9000") (str "p") (str "r") 0)
          ResponseWriter.fresh ⟨str "GET", str "/health"⟩
        = .ok ⟨[], some (200, []),
            [.json [(str "time", .time ⟨0, 0⟩), (str "startTime", .time ⟨0, 0⟩),
              (str "version", .string [239, 191, 189])]]⟩ :=
  ⟨by decide, rfl, by decide, rfl, rfl⟩

/-- C7, amended: for every version `v` that is valid UTF-8 and times `T0 <= T1`
that `encoding/json` can encode (the year, in the location of the time, lies in
`[0, 9999]` and the zone offset is below 24 hours), a server constructed at `T0`
with version `v` answers a health request at `T1` with status 200 and the JSON
object `time = T1`, `startTime = T0`, `version = v`, in this order and nothing
else in the body; the answer depends on the time of the call only through the
member `time`. -/
theorem health_report (v listenAddress proxyUrl relayUrl : GoString) (key : PrivateKeyRef)
    (T0 T1 : ZonedTime) (req : Request)
    (hv : ValidString v = true) (_h01 : T0.instant ≤ T1.instant)
    (hy0 : yearOutOfRange T0 = false) (hz0 : zoneHourOutOfRange T0 = false)
    (hy1 : yearOutOfRange T1 = false) (hz1 : zoneHourOutOfRange T1 = false) :
    ∃ w, handleHealthRequest T1
          (NewRpcEndPointServer T0 v listenAddress proxyUrl relayUrl key)
          ResponseWriter.fresh req = .ok w
        ∧ w.status = some 200
        ∧ w.body = [.json [(str "time", .time T1), (str "startTime", .time T0),
            (str "version", .string v)]] := by
  refine ⟨⟨[], some (200, []), [.json [(str "time", .time T1), (str "startTime", .time T0),
    (str "version", .string v)]]⟩, ?_, rfl, rfl⟩
  simp only [handleHealthRequest, NewRpcEndPointServer, jsonMarshal, Time.MarshalJSON,
    hy0, hz0, hy1, hz1, toValidUTF8_of_valid v hv]
  rfl

theorem health_report_witness :
    ValidString (str "v1") = true
      ∧ (0 : Time) ≤ 5000000000
      ∧ yearOutOfRange ⟨0, 0⟩ = false ∧ zoneHourOutOfRange ⟨0, 0⟩ = false
      ∧ yearOutOfRange ⟨5000000000, 7200⟩ = false
      ∧ zoneHourOutOfRange ⟨5000000000, 7200⟩ = false
      ∧ ∃ w, handleHealthRequest ⟨5000000000, 7200⟩
            (NewRpcEndPointServer ⟨0, 0⟩ (str "v1") (str ":9000") (str "p") (str "r") 0)
            ResponseWriter.fresh ⟨str "GET", str "/health"⟩ = .ok w
          ∧ w.status = some 200
          ∧ w.body = [.json [(str "time", .time ⟨5000000000, 7200⟩),
              (str "startTime", .time ⟨0, 0⟩), (str "version", .string (str "v1"))]] :=
  ⟨by decide, by decide, by decide, by decide, by decide, by decide,
   health_report (str "v1") (str ":9000") (str "p") (str "r") 0 ⟨0, 0⟩ ⟨5000000000, 7200⟩
     ⟨str "GET", str "/health"⟩ (by decide) (by decide) (by decide) (by decide) (by decide)
     (by decide)⟩

end Server
